import Mathlib

/-!
Verification development for the spandex paragraph-justification core.

The embedding covers the three source files:
* `src/units.rs` — scaled-point unit conversions and the `nearly_equal`
  predicate.  The Rust code computes with `f64`; here the arithmetic is
  embedded exactly over `ℚ` with the same constant ratios, and `f64::round`
  is embedded as round-half-away-from-zero.
* `src/typography/items.rs` — the three-variant item model.  The glyph
  payload (`Glyph` lives outside the provided sources) is opaque to the
  justifier, so it is modelled as a type parameter `α`.
* `src/typography/justification.rs` — `NaiveJustifier::justify`, embedded
  as a fold over the item list with an explicit state record.  At this
  layer the Rust code measures widths in `printpdf::Pt` (an `f64`
  newtype); widths are embedded as `ℚ`.
-/

namespace Spandex

/-- Round half away from zero, the rounding mode of Rust `f64::round`
used by the `From<Mm> for Sp` and `From<Pt> for Sp` conversions. -/
def roundHalfAwayFromZero (q : ℚ) : ℤ :=
  if 0 ≤ q then ⌊q + 1 / 2⌋ else -⌊1 / 2 - q⌋

/-- Conversion `Sp::from(Mm)` from `src/units.rs`:
`Sp(((72.27 / 25.4) * 65_536.0 * mm.0).round() as i64)`. -/
def mmToSp (mm : ℚ) : ℤ :=
  roundHalfAwayFromZero ((7227 / 100) / (254 / 10) * 65536 * mm)

/-- Conversion `Into<Mm> for Sp` from `src/units.rs`:
`Mm((25.4 / (72.27 * 65_536.0)) * (self.0 as f64))`. -/
def spToMm (s : ℤ) : ℚ :=
  (254 / 10) / ((7227 / 100) * 65536) * (s : ℚ)

/-- Conversion `Sp::from(Pt)` from `src/units.rs`:
`Sp((65_536.0 * pt.0).round() as i64)`. -/
def ptToSp (pt : ℚ) : ℤ :=
  roundHalfAwayFromZero (65536 * pt)

/-- Conversion `Into<Pt> for Sp` from `src/units.rs`:
`Pt((self.0 as f64) / 65_536.0)`. -/
def spToPt (s : ℤ) : ℚ :=
  (s : ℚ) / 65536

/-- Smallest positive normal `f64`, `f64::MIN_POSITIVE`, as an exact rational. -/
def f64MinPositive : ℚ := 1 / 2 ^ 1022

/-- Machine epsilon of `f64`, `f64::EPSILON`, as an exact rational. -/
def f64Epsilon : ℚ := 1 / 2 ^ 52

/-- Largest finite `f64`, `f64::MAX`, as an exact rational. -/
def f64Max : ℚ := (2 ^ 53 - 1) * 2 ^ 971

/-- The `nearly_equal` predicate from `src/units.rs`, with each `f64`
operation embedded as the exact rational operation. -/
def nearlyEqual (a b : ℚ) : Bool :=
  let diff := |a - b|
  if a = b then
    true
  else if a = 0 ∨ b = 0 ∨ diff < f64MinPositive then
    decide (diff < f64Epsilon * f64MinPositive)
  else
    decide (diff / min (|a| + |b|) f64Max < 10 / 100000)

/-- Item content from `src/typography/items.rs` (`enum Content`).  The
glyph payload is opaque to the justifier and modelled as a type
parameter; glue and penalty fields are carried verbatim (the
justification layer measures in points, embedded as `ℚ`). -/
inductive Content (α : Type) where
  | boundingBox (glyph : α)
  | glue (stretchability shrinkability : ℚ)
  | penalty (value : ℤ) (flagged : Bool)
deriving DecidableEq

/-- Item from `src/typography/items.rs` (`struct Item`): a width plus a
content variant.  At the justification layer the width is a `Pt`
(an `f64` newtype), embedded as `ℚ`. -/
structure Item (α : Type) where
  width : ℚ
  content : Content α
deriving DecidableEq

variable {α : Type}

/-- Loop state of `NaiveJustifier::justify`: the emitted lines `ret`,
the words of the current line, the glyphs of the current word, and the
running horizontal extent `current_x`. -/
structure JState (α : Type) where
  ret : List (List (α × ℚ))
  line : List (List (Item α))
  word : List (Item α)
  x : ℚ
deriving DecidableEq

/-- Initial state of the justification loop (`vec![]`, `vec![]`, `vec![]`,
`Pt(0.0)`). -/
def initState : JState α := ⟨[], [], [], 0⟩

/-- The `match item.content` step of the loop body in
`NaiveJustifier::justify`: a box advances the extent and joins the
current word, glue closes the current word onto the line and advances
the extent by the fixed spacing `Pt(7.5)`, a penalty does nothing. -/
def consume (s : JState α) (it : Item α) : JState α :=
  match it.content with
  | .boundingBox _ => { s with x := s.x + it.width, word := s.word ++ [it] }
  | .glue _ _ => { s with line := s.line ++ [s.word], x := s.x + 15 / 2, word := [] }
  | .penalty _ _ => s

/-- The `occupied_width` computation of `NaiveJustifier::justify`: the
sum of the widths of every item of every word of the line. -/
def occupied (ws : List (List (Item α))) : ℚ :=
  (ws.map (fun w => (w.map Item.width).sum)).sum

/-- The `word_space` computation of `NaiveJustifier::justify`, applied
to the line after the last word has been popped:
`available_space / (len - 1)` when more than one word remains, else the
fixed fallback `Pt(7.5)`. -/
def wordSpace (W : ℚ) (ws : List (List (Item α))) : ℚ :=
  if 1 < ws.length then (W - occupied ws) / ((ws.length - 1 : ℕ) : ℚ)
  else 15 / 2

/-- The inner `for item in &word` loop of the line-emission code: each
box item appends a `(glyph, current_x)` pair and advances `current_x`
by its width; other items are skipped. -/
def pushGlyphs (st : List (α × ℚ) × ℚ) (w : List (Item α)) : List (α × ℚ) × ℚ :=
  w.foldl
    (fun st2 it =>
      match it.content with
      | .boundingBox g => (st2.1 ++ [(g, st2.2)], st2.2 + it.width)
      | _ => st2)
    st

/-- One step of the `for word in current_line` emission loop: place the
word's glyphs, then advance `current_x` by the inter-word space. -/
def lineStep (gap : ℚ) (st : List (α × ℚ) × ℚ) (w : List (Item α)) :
    List (α × ℚ) × ℚ :=
  let st2 := pushGlyphs st w
  (st2.1, st2.2 + gap)

/-- The line-emission code of `NaiveJustifier::justify` (used both in
the overflow branch and for the final flush): lay the words out
left-to-right from `current_x = Pt(0.0)`, spacing them by `gap`. -/
def setLine (gap : ℚ) (ws : List (List (Item α))) : List (α × ℚ) :=
  (ws.foldl (lineStep gap) ([], 0)).1

/-- The `if current_x > text_width && current_line.len() > 1` branch of
`NaiveJustifier::justify`: pop the last word, emit the remaining words
spaced by `word_space`, and start the next line with the popped word. -/
def overflowCheck (W : ℚ) (s : JState α) : JState α :=
  if W < s.x ∧ 1 < s.line.length then
    { ret := s.ret ++ [setLine (wordSpace W s.line.dropLast) s.line.dropLast],
      line := [(s.line.getLast?).getD []],
      word := s.word,
      x := 0 }
  else s

/-- One full iteration of the `for item in paragraph.iter().skip(1)`
loop: the content match followed by the overflow check. -/
def step (W : ℚ) (s : JState α) (it : Item α) : JState α :=
  overflowCheck W (consume s it)

/-- The complete loop of `NaiveJustifier::justify` over
`paragraph.iter().skip(1)`. -/
def walk (p : List (Item α)) (W : ℚ) : JState α :=
  (p.drop 1).foldl (step W) initState

/-- Function `NaiveJustifier::justify` from
`src/typography/justification.rs`: run the loop, then emit the residual
line with the fixed spacing `Pt(7.5)`.  The paragraph is the item list;
the glyph payload type is a parameter (`Paragraph` and `Glyph` live
outside the provided sources). -/
def justify (p : List (Item α)) (W : ℚ) : List (List (α × ℚ)) :=
  (walk p W).ret ++ [setLine (15 / 2) (walk p W).line]

/-- Glyph payload of a box item, `none` for glue and penalties. -/
def payloadOf (it : Item α) : Option α :=
  match it.content with
  | .boundingBox g => some g
  | _ => none

/-- Glyph payloads of the box items of a list, in order. -/
def boxPayloads (w : List (Item α)) : List α :=
  w.filterMap payloadOf

/-- Rendered width of a word: the sum of its box items' widths (the
only widths the emission loop advances by). -/
def boxWidth : List (Item α) → ℚ
  | [] => 0
  | it :: w =>
    (match it.content with
     | .boundingBox _ => it.width
     | _ => 0) + boxWidth w

/-- Placement of one word starting at offset `x`, stated as the spec
describes it: each glyph sits at the word start plus the widths of the
glyphs before it in the word. -/
def placeOne : ℚ → List (Item α) → List (α × ℚ)
  | _, [] => []
  | x, it :: w =>
    match it.content with
    | .boundingBox g => (g, x) :: placeOne (x + it.width) w
    | _ => placeOne x w

/-- Layout of a line as the spec describes it: each word is placed
immediately after the previous one plus the inter-word gap, so word
`j + 1` starts at the start of word `j` plus word `j`'s rendered width
plus `gap`. -/
def specLineFrom (gap : ℚ) : ℚ → List (List (Item α)) → List (α × ℚ)
  | _, [] => []
  | x, w :: ws => placeOne x w ++ specLineFrom gap (x + boxWidth w + gap) ws

/-- Layout of a line as the spec describes it, starting at the left
margin (offset `0`). -/
def specLine (gap : ℚ) (ws : List (List (Item α))) : List (α × ℚ) :=
  specLineFrom gap 0 ws

/-- One step of the word decomposition of an item sequence: boxes
extend the pending word, glue closes it, penalties are skipped. -/
def scanStep (st : List (List α) × List α) (it : Item α) :
    List (List α) × List α :=
  match it.content with
  | .boundingBox g => (st.1, st.2 ++ [g])
  | .glue _ _ => (st.1 ++ [st.2], [])
  | .penalty _ _ => st

/-- Word decomposition of an item sequence: the words closed by a glue
item (first component) and the pending unclosed word (second). -/
def wordScan (q : List (Item α)) : List (List α) × List α :=
  q.foldl scanStep ([], [])

/-- The glyph payloads of a list of output lines. -/
def linesPayloads (ls : List (List (α × ℚ))) : List (List α) :=
  ls.map (fun l => l.map Prod.fst)

/-- Whether an item is a penalty. -/
def isPenaltyItem (it : Item α) : Bool :=
  match it.content with
  | .penalty _ _ => true
  | _ => false

/-- Whether an item is glue. -/
def isGlueItem (it : Item α) : Bool :=
  match it.content with
  | .glue _ _ => true
  | _ => false

theorem pushGlyphs_eq (w : List (Item α)) : ∀ st : List (α × ℚ) × ℚ,
    pushGlyphs st w = (st.1 ++ placeOne st.2 w, st.2 + boxWidth w) := by
  induction w with
  | nil => intro st; simp [pushGlyphs, placeOne, boxWidth]
  | cons it w ih =>
    intro st
    obtain ⟨wd, c⟩ := it
    cases c with
    | boundingBox g =>
      have h : pushGlyphs st (⟨wd, .boundingBox g⟩ :: w)
          = pushGlyphs (st.1 ++ [(g, st.2)], st.2 + wd) w := by
        simp [pushGlyphs]
      rw [h, ih]
      simp [placeOne, boxWidth]
      ring
    | glue a b =>
      have h : pushGlyphs st (⟨wd, .glue a b⟩ :: w) = pushGlyphs st w := by
        simp [pushGlyphs]
      rw [h, ih]
      simp [placeOne, boxWidth]
    | penalty v f =>
      have h : pushGlyphs st (⟨wd, .penalty v f⟩ :: w) = pushGlyphs st w := by
        simp [pushGlyphs]
      rw [h, ih]
      simp [placeOne, boxWidth]

theorem setLine_foldl (gap : ℚ) (ws : List (List (Item α))) :
    ∀ st : List (α × ℚ) × ℚ,
    (ws.foldl (lineStep gap) st).1 = st.1 ++ specLineFrom gap st.2 ws := by
  induction ws with
  | nil => intro st; simp [specLineFrom]
  | cons w ws ih =>
    intro st
    have h : (w :: ws).foldl (lineStep gap) st
        = ws.foldl (lineStep gap) (st.1 ++ placeOne st.2 w, st.2 + boxWidth w + gap) := by
      simp [List.foldl_cons, lineStep, pushGlyphs_eq]
    rw [h, ih]
    simp [specLineFrom]

theorem setLine_eq_specLine (gap : ℚ) (ws : List (List (Item α))) :
    setLine gap ws = specLine gap ws := by
  simp [setLine, specLine, setLine_foldl]

theorem placeOne_map_fst : ∀ (x : ℚ) (w : List (Item α)),
    (placeOne x w).map Prod.fst = boxPayloads w := by
  intro x w
  induction w generalizing x with
  | nil => simp [placeOne, boxPayloads]
  | cons it w ih =>
    obtain ⟨wd, c⟩ := it
    cases c <;> simp [placeOne, boxPayloads, payloadOf, List.filterMap_cons, ih]

theorem specLineFrom_map_fst (gap : ℚ) : ∀ (x : ℚ) (ws : List (List (Item α))),
    (specLineFrom gap x ws).map Prod.fst = (ws.map boxPayloads).flatten := by
  intro x ws
  induction ws generalizing x with
  | nil => simp [specLineFrom]
  | cons w ws ih => simp [specLineFrom, placeOne_map_fst, ih]

theorem setLine_map_fst (gap : ℚ) (ws : List (List (Item α))) :
    (setLine gap ws).map Prod.fst = (ws.map boxPayloads).flatten := by
  rw [setLine_eq_specLine]
  exact specLineFrom_map_fst gap 0 ws

theorem dropLast_append_getLastD {β : Type} (l : List β) (h : l ≠ []) (d : β) :
    l.dropLast ++ [(l.getLast?).getD d] = l := by
  induction l with
  | nil => exact absurd rfl h
  | cons a l ih =>
    cases l with
    | nil => simp
    | cons b t =>
      simp only [List.dropLast_cons₂, List.getLast?_cons_cons, List.cons_append]
      rw [ih (by simp)]



/-- Invariant tying the justifier state to the word decomposition of
the items consumed so far: the emitted lines are flattenings of
consecutive chunks of closed words, the current line holds the closed
words not yet emitted, and the current word is the pending word. -/
def InvP (s : JState α) (st : List (List α) × List α) : Prop :=
  (∃ chunks : List (List (List α)),
      linesPayloads s.ret = chunks.map List.flatten ∧
      chunks.flatten ++ s.line.map boxPayloads = st.1) ∧
  boxPayloads s.word = st.2

theorem overflowCheck_inv (W : ℚ) (s : JState α) (st : List (List α) × List α)
    (h : InvP s st) : InvP (overflowCheck W s) st := by
  obtain ⟨⟨chunks, h1, h2⟩, h3⟩ := h
  unfold overflowCheck
  split
  case isTrue hc =>
    have hne : s.line ≠ [] := by
      intro he
      rw [he] at hc
      simp at hc
    have hl : s.line.dropLast ++ [(s.line.getLast?).getD []] = s.line :=
      dropLast_append_getLastD s.line hne []
    refine ⟨⟨chunks ++ [s.line.dropLast.map boxPayloads], ?_, ?_⟩, h3⟩
    · simp [linesPayloads] at h1 ⊢
      rw [h1, setLine_map_fst]
      simp [List.map_dropLast]
    · rw [← hl] at h2
      simp only [List.map_append, List.flatten_append, List.flatten_cons,
        List.flatten_nil, List.map_cons, List.map_nil, List.append_nil] at h2 ⊢
      rw [List.append_assoc]
      exact h2
  case isFalse => exact ⟨⟨chunks, h1, h2⟩, h3⟩

theorem consume_inv (s : JState α) (st : List (List α) × List α) (it : Item α)
    (h : InvP s st) : InvP (consume s it) (scanStep st it) := by
  obtain ⟨⟨chunks, h1, h2⟩, h3⟩ := h
  obtain ⟨wd, c⟩ := it
  cases c with
  | boundingBox g =>
    refine ⟨⟨chunks, ?_, ?_⟩, ?_⟩ <;>
      simp [consume, scanStep, boxPayloads, payloadOf, List.filterMap_append] at *
        <;> simp [h1, h2, h3, boxPayloads, payloadOf]
  | glue a b =>
    refine ⟨⟨chunks, ?_, ?_⟩, ?_⟩ <;>
      simp [consume, scanStep, boxPayloads] at *
    · exact h1
    · rw [← List.append_assoc, h2, h3]
  | penalty v f =>
    exact ⟨⟨chunks, by simpa [consume] using h1, by simpa [consume] using h2⟩,
      by simpa [consume, scanStep] using h3⟩

theorem step_inv (W : ℚ) (s : JState α) (st : List (List α) × List α) (it : Item α)
    (h : InvP s st) : InvP (step W s it) (scanStep st it) :=
  overflowCheck_inv W _ _ (consume_inv s st it h)

theorem foldl_inv (W : ℚ) : ∀ (q : List (Item α)) (s : JState α)
    (st : List (List α) × List α), InvP s st →
    InvP (q.foldl (step W) s) (q.foldl scanStep st) := by
  intro q
  induction q with
  | nil => intro s st h; exact h
  | cons it q ih =>
    intro s st h
    exact ih _ _ (step_inv W s st it h)

theorem walk_inv (p : List (Item α)) (W : ℚ) :
    InvP (walk p W) (wordScan (p.drop 1)) := by
  refine foldl_inv W (p.drop 1) initState ([], []) ?_
  exact ⟨⟨[], by simp [linesPayloads, initState], by simp [initState]⟩,
    by simp [initState, boxPayloads]⟩

/-- Structural description of the output of `justify`: the payload
sequence of its lines is a partition of the closed words of the input
into consecutive chunks, each line being the concatenation of the whole
words of its chunk. -/
theorem justify_chunks (p : List (Item α)) (W : ℚ) :
    ∃ chunks : List (List (List α)),
      linesPayloads (justify p W) = chunks.map List.flatten ∧
      chunks.flatten = (wordScan (p.drop 1)).1 := by
  obtain ⟨⟨chunks, h1, h2⟩, _⟩ := walk_inv p W
  refine ⟨chunks ++ [(walk p W).line.map boxPayloads], ?_, ?_⟩
  · simp [justify, linesPayloads] at h1 ⊢
    rw [h1, setLine_map_fst]
  · simp only [List.flatten_append, List.flatten_cons, List.flatten_nil,
      List.append_nil]
    exact h2


theorem scan_flatten : ∀ (q : List (Item α)) (st : List (List α) × List α),
    ((q.foldl scanStep st).1).flatten ++ (q.foldl scanStep st).2
      = st.1.flatten ++ st.2 ++ boxPayloads q := by
  intro q
  induction q with
  | nil => intro st; simp [boxPayloads]
  | cons it q ih =>
    intro st
    obtain ⟨wd, c⟩ := it
    cases c with
    | boundingBox g =>
      rw [List.foldl_cons]
      rw [ih]
      simp [scanStep, boxPayloads, payloadOf, List.filterMap_cons]
    | glue a b =>
      rw [List.foldl_cons]
      rw [ih]
      simp [scanStep, boxPayloads, payloadOf, List.filterMap_cons]
    | penalty v f =>
      rw [List.foldl_cons]
      rw [ih]
      simp [scanStep, boxPayloads, payloadOf, List.filterMap_cons]

theorem wordScan_flatten (q : List (Item α)) :
    ((wordScan q).1).flatten ++ (wordScan q).2 = boxPayloads q := by
  simpa [wordScan] using scan_flatten q ([], [])

theorem flatten_map_flatten {β : Type} :
    ∀ c : List (List (List β)), (c.map List.flatten).flatten = c.flatten.flatten := by
  intro c
  induction c with
  | nil => simp
  | cons x c ih => simp [ih]

/-- Helper: the output glyph payloads of `justify`, flattened, are
exactly the glyph payloads of the words closed by glue, in order. -/
theorem justify_flatten_payloads (p : List (Item α)) (W : ℚ) :
    ((justify p W).flatten).map Prod.fst = ((wordScan (p.drop 1)).1).flatten := by
  obtain ⟨chunks, h1, h2⟩ := justify_chunks p W
  have hm : ((justify p W).flatten).map Prod.fst
      = (linesPayloads (justify p W)).flatten := by
    simp [linesPayloads, List.map_flatten]
  rw [hm, h1, flatten_map_flatten, h2]

/-- Helper: the state after the overflow check never satisfies the
overflow condition. -/
theorem overflowCheck_post (W : ℚ) (s : JState α) :
    ¬(W < (overflowCheck W s).x ∧ 1 < (overflowCheck W s).line.length) := by
  unfold overflowCheck
  split
  case isTrue => simp
  case isFalse h => exact h

theorem step_penalty (W : ℚ) (s : JState α) (it : Item α)
    (h : ¬(W < s.x ∧ 1 < s.line.length)) (hp : isPenaltyItem it = true) :
    step W s it = s := by
  obtain ⟨wd, c⟩ := it
  cases c <;> simp [isPenaltyItem] at hp
  simp [step, consume, overflowCheck, h]

theorem foldl_filter (W : ℚ) : ∀ (q : List (Item α)) (s : JState α),
    ¬(W < s.x ∧ 1 < s.line.length) →
    q.foldl (step W) s
      = (q.filter (fun it => !isPenaltyItem it)).foldl (step W) s := by
  intro q
  induction q with
  | nil => intro s _; simp
  | cons it q ih =>
    intro s hs
    by_cases hp : isPenaltyItem it = true
    · rw [List.foldl_cons, step_penalty W s it hs hp,
        List.filter_cons_of_neg (by simp [hp]), ih s hs]
    · rw [List.foldl_cons, List.filter_cons_of_pos (by simp [hp]), List.foldl_cons]
      exact ih (step W s it) (overflowCheck_post W _)

/-- Helper: penalties are inert: filtering every penalty item out of
the walked part of the paragraph does not change the output. -/
theorem justify_filter_penalties (p : List (Item α)) (W : ℚ) :
    justify p W = justify (p.take 1 ++ (p.drop 1).filter (fun it => !isPenaltyItem it)) W := by
  have hdrop : (p.take 1 ++ (p.drop 1).filter (fun it => !isPenaltyItem it)).drop 1
      = (p.drop 1).filter (fun it => !isPenaltyItem it) := by
    cases p with
    | nil => simp
    | cons a t => simp
  simp only [justify, walk, hdrop]
  rw [← foldl_filter W (p.drop 1) initState (by simp [initState])]


theorem payloadOf_eq_some {it : Item α} {g : α} (h : payloadOf it = some g) :
    it.content = Content.boundingBox g := by
  obtain ⟨wd, c⟩ := it
  cases c with
  | boundingBox g2 => simp [payloadOf] at h; simp [h]
  | glue a b => simp [payloadOf] at h
  | penalty v f => simp [payloadOf] at h

theorem scan_nil_no_glue : ∀ (q : List (Item α)) (st : List (List α) × List α),
    ((q.foldl scanStep st).1) = [] →
    st.1 = [] ∧ ∀ it ∈ q, isGlueItem it = false := by
  intro q
  induction q with
  | nil => intro st h; exact ⟨h, by simp⟩
  | cons it q ih =>
    intro st h
    rw [List.foldl_cons] at h
    obtain ⟨h1, h2⟩ := ih (scanStep st it) h
    obtain ⟨wd, c⟩ := it
    cases c with
    | boundingBox g =>
      refine ⟨by simpa [scanStep] using h1, ?_⟩
      intro x hx
      rcases List.mem_cons.mp hx with he | hm
      · subst he; simp [isGlueItem]
      · exact h2 x hm
    | glue a b =>
      simp [scanStep] at h1
    | penalty v f =>
      refine ⟨by simpa [scanStep] using h1, ?_⟩
      intro x hx
      rcases List.mem_cons.mp hx with he | hm
      · subst he; simp [isGlueItem]
      · exact h2 x hm

theorem walk_no_glue (W : ℚ) : ∀ (q : List (Item α)) (s : JState α),
    (∀ it ∈ q, isGlueItem it = false) → s.line = [] → s.ret = [] →
    (q.foldl (step W) s).line = [] ∧ (q.foldl (step W) s).ret = [] := by
  intro q
  induction q with
  | nil => intro s _ hl hr; exact ⟨hl, hr⟩
  | cons it q ih =>
    intro s hng hl hr
    have hit : isGlueItem it = false := hng it (List.mem_cons_self it q)
    have hstep : (step W s it).line = [] ∧ (step W s it).ret = [] := by
      obtain ⟨wd, c⟩ := it
      cases c with
      | boundingBox g => simp [step, consume, overflowCheck, hl, hr]
      | glue a b => simp [isGlueItem] at hit
      | penalty v f => simp [step, consume, overflowCheck, hl, hr]
    rw [List.foldl_cons]
    exact ih (step W s it) (fun x hx => hng x (List.mem_cons_of_mem it hx)) hstep.1 hstep.2

/-- C1 (amended claim): every Box item of the input that is closed by a
later Glue item appears as a (glyph, offset) pair in exactly one output
line of `justify`, with no glyph lost or duplicated: the concatenation
of the output lines' glyph payloads equals, in order, the concatenation
of the glue-closed words of the walked item sequence. -/
theorem C1_exhaustive_closed_words (p : List (Item α)) (W : ℚ) :
    ((justify p W).flatten).map Prod.fst = ((wordScan (p.drop 1)).1).flatten :=
  justify_flatten_payloads p W

/-- C1 (counterexample to the claim as stated): for the paragraph
consisting of the skipped structural marker followed by a single Box
item not followed by any Glue, the Box item appears in the input but in
no output line of `justify`, so a glyph is lost. -/
theorem C1_counterexample :
    boxPayloads ((([⟨0, .penalty 0 false⟩, ⟨5, .boundingBox 0⟩]) : List (Item ℕ)).drop 1) = [0]
    ∧ ((justify (([⟨0, .penalty 0 false⟩, ⟨5, .boundingBox 0⟩]) : List (Item ℕ)) 10).flatten).map
        Prod.fst = [] := by
  constructor
  · simp [boxPayloads, payloadOf, List.filterMap_cons]
  · norm_num [justify, walk, step, consume, overflowCheck, initState, setLine,
      lineStep, pushGlyphs]

/-- C8: the engine never splits a word across two output lines: the
output lines' payload lists are the flattenings of consecutive chunks
of the glue-closed words of the input, so every closed word lands
wholly and contiguously inside exactly one line, whatever its width. -/
theorem C8_indivisibility (p : List (Item α)) (W : ℚ) :
    ∃ chunks : List (List (List α)),
      linesPayloads (justify p W) = chunks.map List.flatten ∧
      chunks.flatten = (wordScan (p.drop 1)).1 :=
  justify_chunks p W

/-- C4: after the walk over the item sequence, `justify` emits exactly
one final line holding the residual words of the current line, laid out
left-to-right with the fixed fallback spacing `Pt(7.5)` rather than a
width-justified gap. -/
theorem C4_final_line (p : List (Item α)) (W : ℚ) :
    justify p W = (walk p W).ret ++ [specLine (15 / 2) ((walk p W).line)] := by
  simp [justify, setLine_eq_specLine]

/-- C9: the result of `justify` is never the empty list of lines, and a
paragraph producing zero words (no word is ever closed by glue) yields
exactly one line, the empty line. -/
theorem C9_zero_words (p : List (Item α)) (W : ℚ) :
    justify p W ≠ [] ∧ ((wordScan (p.drop 1)).1 = [] → justify p W = [[]]) := by
  constructor
  · simp [justify]
  · intro h
    obtain ⟨_, hng⟩ := scan_nil_no_glue (p.drop 1) ([], []) (by simpa [wordScan] using h)
    obtain ⟨hl, hr⟩ :=
      walk_no_glue W (p.drop 1) initState hng (by simp [initState]) (by simp [initState])
    simp only [justify, walk] at hl hr ⊢
    rw [hl, hr]
    simp [setLine]

/-- C9 witness: at the empty paragraph, the word decomposition is empty
and `justify` returns exactly one empty line. -/
theorem C9_zero_words_witness :
    justify ([] : List (Item ℕ)) 5 = [[]] ∧ justify ([] : List (Item ℕ)) 5 ≠ [] :=
  ⟨(C9_zero_words ([] : List (Item ℕ)) 5).2 rfl, (C9_zero_words ([] : List (Item ℕ)) 5).1⟩

/-- C10: every (glyph, offset) pair of the output of `justify`
originates from a BoundingBox item of the walked input, and penalty
items are inert: removing every penalty item from the walked part of
the paragraph leaves the output unchanged (no break, no width, no
payload from penalties; no payload from glue). -/
theorem C10_box_origin_penalty_inert (p : List (Item α)) (W : ℚ) :
    (∀ g x, (g, x) ∈ (justify p W).flatten →
      ∃ it ∈ p.drop 1, it.content = Content.boundingBox g)
    ∧ justify p W
        = justify (p.take 1 ++ (p.drop 1).filter (fun it => !isPenaltyItem it)) W := by
  refine ⟨?_, justify_filter_penalties p W⟩
  intro g x hgx
  have hg : g ∈ ((justify p W).flatten).map Prod.fst :=
    List.mem_map.mpr ⟨(g, x), hgx, rfl⟩
  rw [justify_flatten_payloads] at hg
  have hg2 : g ∈ boxPayloads (p.drop 1) := by
    rw [← wordScan_flatten]
    exact List.mem_append_left _ hg
  obtain ⟨it, hit, hsome⟩ := List.mem_filterMap.mp hg2
  exact ⟨it, hit, payloadOf_eq_some hsome⟩

/-- C10 witness: in a concrete two-word paragraph the pair (0, 0)
appears in the output, and it originates from a BoundingBox item of the
walked input. -/
theorem C10_box_origin_witness :
    ∃ it ∈ (([⟨0, .penalty 0 false⟩, ⟨5, .boundingBox 0⟩, ⟨15/2, .glue 0 0⟩,
      ⟨5, .boundingBox 1⟩, ⟨15/2, .glue 0 0⟩]) : List (Item ℕ)).drop 1,
      it.content = Content.boundingBox 0 := by
  refine (C10_box_origin_penalty_inert (([⟨0, .penalty 0 false⟩, ⟨5, .boundingBox 0⟩,
    ⟨15/2, .glue 0 0⟩, ⟨5, .boundingBox 1⟩, ⟨15/2, .glue 0 0⟩]) : List (Item ℕ)) 100).1 0 0 ?_
  norm_num [justify, walk, step, consume, overflowCheck, initState, setLine,
    lineStep, pushGlyphs]


/-- C5: the gap division of `justify` runs only when the redistributed
line holds strictly more than one word, and then its divisor is
nonzero; a line reaching the redistribution step with at most one word
performs no division and uses the fixed fallback spacing `Pt(7.5)`. -/
theorem C5_division_guard (W : ℚ) (ws : List (List (Item α))) :
    (ws.length ≤ 1 → wordSpace W ws = 15 / 2) ∧
    (1 < ws.length →
      ((ws.length - 1 : ℕ) : ℚ) ≠ 0 ∧
      wordSpace W ws = (W - occupied ws) / ((ws.length - 1 : ℕ) : ℚ)) := by
  constructor
  · intro h
    rw [wordSpace, if_neg (by omega)]
  · intro h
    refine ⟨?_, by rw [wordSpace, if_pos h]⟩
    exact_mod_cast Nat.cast_ne_zero.mpr (by omega : ws.length - 1 ≠ 0)

/-- C5 witness: a single-word line gets the fallback spacing, a
two-word line gets the division with a nonzero divisor. -/
theorem C5_division_guard_witness :
    wordSpace 100 ([[⟨5, .boundingBox 0⟩]] : List (List (Item ℕ))) = 15 / 2 ∧
    ((([[⟨5, .boundingBox 0⟩], [⟨5, .boundingBox 1⟩]] : List (List (Item ℕ))).length - 1 : ℕ) : ℚ) ≠ 0 :=
  ⟨(C5_division_guard 100 ([[⟨5, .boundingBox 0⟩]] : List (List (Item ℕ)))).1 (by norm_num),
   ((C5_division_guard 100
      ([[⟨5, .boundingBox 0⟩], [⟨5, .boundingBox 1⟩]] : List (List (Item ℕ)))).2 (by norm_num)).1⟩

/-- C2: when the overflow branch fires, the popped last word starts the
next line, and the emitted line lays the remaining words out
left-to-right, each immediately after the previous one plus a uniform
gap of (target width − occupied width) / (word count − 1) when more
than one word remains, else the fixed fallback `Pt(7.5)`; offsets are
measured from the left margin. -/
theorem C2_overflow_layout (W : ℚ) (s : JState α)
    (h1 : W < s.x) (h2 : 1 < s.line.length) :
    overflowCheck W s =
      { ret := s.ret ++ [specLine
          (if 1 < s.line.dropLast.length
           then (W - occupied s.line.dropLast) / ((s.line.dropLast.length - 1 : ℕ) : ℚ)
           else 15 / 2) s.line.dropLast],
        line := [(s.line.getLast?).getD []],
        word := s.word,
        x := 0 } := by
  rw [overflowCheck, if_pos ⟨h1, h2⟩, setLine_eq_specLine]
  rfl

/-- C2 witness: a concrete overflowing three-word line is emitted with
the computed uniform gap and the popped word starts the next line. -/
theorem C2_overflow_layout_witness :
    (50 : ℚ) < (100 : ℚ) ∧
    overflowCheck 50 (⟨[], [[⟨5, .boundingBox 0⟩], [⟨5, .boundingBox 1⟩],
        [⟨5, .boundingBox 2⟩]], [], 100⟩ : JState ℕ) =
      { ret := [] ++ [specLine
          (if 1 < ([[⟨5, .boundingBox 0⟩], [⟨5, .boundingBox 1⟩],
              [⟨5, .boundingBox 2⟩]] : List (List (Item ℕ))).dropLast.length
           then (50 - occupied ([[⟨5, .boundingBox 0⟩], [⟨5, .boundingBox 1⟩],
              [⟨5, .boundingBox 2⟩]] : List (List (Item ℕ))).dropLast)
             / ((([[⟨5, .boundingBox 0⟩], [⟨5, .boundingBox 1⟩],
              [⟨5, .boundingBox 2⟩]] : List (List (Item ℕ))).dropLast.length - 1 : ℕ) : ℚ)
           else 15 / 2) ([[⟨5, .boundingBox 0⟩], [⟨5, .boundingBox 1⟩],
              [⟨5, .boundingBox 2⟩]] : List (List (Item ℕ))).dropLast],
        line := [(([[⟨5, .boundingBox 0⟩], [⟨5, .boundingBox 1⟩],
            [⟨5, .boundingBox 2⟩]] : List (List (Item ℕ))).getLast?).getD []],
        word := [],
        x := 0 } :=
  ⟨by norm_num,
   C2_overflow_layout 50 (⟨[], [[⟨5, .boundingBox 0⟩], [⟨5, .boundingBox 1⟩],
     [⟨5, .boundingBox 2⟩]], [], 100⟩ : JState ℕ) (by norm_num) (by norm_num)⟩


/-- C7: the concrete unit conversions of the repository: Mm(17.5) to
scaled points gives 3263190, Pt(56.82) gives 3723756, Sp(3263189) back
to millimeters is nearly equal to 17.5, and Sp(1327104) back to points
is nearly equal to 20.25. -/
theorem C7_unit_conversions :
    mmToSp (35 / 2) = 3263190 ∧ ptToSp (2841 / 50) = 3723756 ∧
    nearlyEqual (spToMm 3263189) (35 / 2) = true ∧
    nearlyEqual (spToPt 1327104) (81 / 4) = true := by
  refine ⟨?_, ?_, ?_, ?_⟩
  · rw [mmToSp, roundHalfAwayFromZero, if_pos (by norm_num)]
    norm_num
  · rw [ptToSp, roundHalfAwayFromZero, if_pos (by norm_num)]
    norm_num
  · rw [nearlyEqual]
    rw [if_neg (by norm_num [spToMm]),
      if_neg (by norm_num [spToMm, f64MinPositive, abs_of_pos]),
      decide_eq_true_eq, min_eq_left (by norm_num [spToMm, f64Max, abs_of_pos])]
    norm_num [spToMm, abs_of_pos]
  · rw [nearlyEqual, if_pos (by norm_num [spToPt])]

/-- C3 (counterexample to the claim as stated): a paragraph of three
one-glyph words of width 10 each with target width 100 (total natural
width 30 < 100) yields a single line spaced with the fixed fallback
`Pt(7.5)`, not with the claimed computed gap (100 − 30) / 2 = 35, which
would put the second glyph at 45 and the third at 90. -/
theorem C3_counterexample :
    justify (([⟨0, .penalty 0 false⟩,
      ⟨10, .boundingBox 0⟩, ⟨15 / 2, .glue 0 0⟩,
      ⟨10, .boundingBox 1⟩, ⟨15 / 2, .glue 0 0⟩,
      ⟨10, .boundingBox 2⟩, ⟨15 / 2, .glue 0 0⟩]) : List (Item ℕ)) 100
      = [[(0, 0), (1, 35 / 2), (2, 35)]]
    ∧ justify (([⟨0, .penalty 0 false⟩,
      ⟨10, .boundingBox 0⟩, ⟨15 / 2, .glue 0 0⟩,
      ⟨10, .boundingBox 1⟩, ⟨15 / 2, .glue 0 0⟩,
      ⟨10, .boundingBox 2⟩, ⟨15 / 2, .glue 0 0⟩]) : List (Item ℕ)) 100
      ≠ [[(0, 0), (1, 45), (2, 90)]] := by
  have hval : justify (([⟨0, .penalty 0 false⟩,
      ⟨10, .boundingBox 0⟩, ⟨15 / 2, .glue 0 0⟩,
      ⟨10, .boundingBox 1⟩, ⟨15 / 2, .glue 0 0⟩,
      ⟨10, .boundingBox 2⟩, ⟨15 / 2, .glue 0 0⟩]) : List (Item ℕ)) 100
      = [[(0, 0), (1, 35 / 2), (2, 35)]] := by
    norm_num [justify, walk, step, consume, overflowCheck, initState, setLine,
      lineStep, pushGlyphs, wordSpace, occupied]
  refine ⟨hval, ?_⟩
  rw [hval]
  norm_num

/-- C3 (amended claim): for a paragraph of three one-glyph words each
closed by glue, whose total natural width plus the three fixed
inter-word advances (3 × 7.5) does not exceed the target width,
`justify` yields exactly one line with the first glyph at offset 0 and
each subsequent glyph at its predecessor's offset plus the
predecessor's width plus the fixed fallback spacing `Pt(7.5)` (the
final line is not width-justified). -/
theorem C3_three_words_single_line (m : Item α) (g0 g1 g2 : α)
    (w0 w1 w2 sw st sh W : ℚ)
    (_hw0 : 0 ≤ w0) (_hw1 : 0 ≤ w1) (hw2 : 0 ≤ w2)
    (hW : w0 + w1 + w2 + 45 / 2 ≤ W) :
    justify [m, ⟨w0, .boundingBox g0⟩, ⟨sw, .glue st sh⟩,
             ⟨w1, .boundingBox g1⟩, ⟨sw, .glue st sh⟩,
             ⟨w2, .boundingBox g2⟩, ⟨sw, .glue st sh⟩] W
      = [[(g0, 0), (g1, w0 + 15 / 2), (g2, w0 + 15 / 2 + w1 + 15 / 2)]] := by
  have e1 : step W (initState : JState α) ⟨w0, .boundingBox g0⟩
      = ⟨[], [], [⟨w0, .boundingBox g0⟩], w0⟩ := by
    simp [step, consume, overflowCheck, initState]
  have e2 : step W (⟨[], [], [⟨w0, .boundingBox g0⟩], w0⟩ : JState α) ⟨sw, .glue st sh⟩
      = ⟨[], [[⟨w0, .boundingBox g0⟩]], [], w0 + 15 / 2⟩ := by
    simp [step, consume, overflowCheck]
  have e3 : step W (⟨[], [[⟨w0, .boundingBox g0⟩]], [], w0 + 15 / 2⟩ : JState α)
      ⟨w1, .boundingBox g1⟩
      = ⟨[], [[⟨w0, .boundingBox g0⟩]], [⟨w1, .boundingBox g1⟩], w0 + 15 / 2 + w1⟩ := by
    simp [step, consume, overflowCheck]
  have e4 : step W (⟨[], [[⟨w0, .boundingBox g0⟩]], [⟨w1, .boundingBox g1⟩],
      w0 + 15 / 2 + w1⟩ : JState α) ⟨sw, .glue st sh⟩
      = ⟨[], [[⟨w0, .boundingBox g0⟩], [⟨w1, .boundingBox g1⟩]], [],
          w0 + 15 / 2 + w1 + 15 / 2⟩ := by
    simp only [step, consume, overflowCheck]
    rw [if_neg]
    · simp
    · rintro ⟨ha, -⟩
      linarith
  have e5 : step W (⟨[], [[⟨w0, .boundingBox g0⟩], [⟨w1, .boundingBox g1⟩]], [],
      w0 + 15 / 2 + w1 + 15 / 2⟩ : JState α) ⟨w2, .boundingBox g2⟩
      = ⟨[], [[⟨w0, .boundingBox g0⟩], [⟨w1, .boundingBox g1⟩]], [⟨w2, .boundingBox g2⟩],
          w0 + 15 / 2 + w1 + 15 / 2 + w2⟩ := by
    simp only [step, consume, overflowCheck]
    rw [if_neg]
    · simp
    · rintro ⟨ha, -⟩
      linarith
  have e6 : step W (⟨[], [[⟨w0, .boundingBox g0⟩], [⟨w1, .boundingBox g1⟩]],
      [⟨w2, .boundingBox g2⟩], w0 + 15 / 2 + w1 + 15 / 2 + w2⟩ : JState α) ⟨sw, .glue st sh⟩
      = ⟨[], [[⟨w0, .boundingBox g0⟩], [⟨w1, .boundingBox g1⟩], [⟨w2, .boundingBox g2⟩]], [],
          w0 + 15 / 2 + w1 + 15 / 2 + w2 + 15 / 2⟩ := by
    simp only [step, consume, overflowCheck]
    rw [if_neg]
    · simp
    · rintro ⟨ha, -⟩
      linarith
  have hwalk : walk [m, ⟨w0, .boundingBox g0⟩, ⟨sw, .glue st sh⟩,
      ⟨w1, .boundingBox g1⟩, ⟨sw, .glue st sh⟩,
      ⟨w2, .boundingBox g2⟩, ⟨sw, .glue st sh⟩] W
      = ⟨[], [[⟨w0, .boundingBox g0⟩], [⟨w1, .boundingBox g1⟩], [⟨w2, .boundingBox g2⟩]], [],
          w0 + 15 / 2 + w1 + 15 / 2 + w2 + 15 / 2⟩ := by
    simp only [walk, List.drop_succ_cons, List.drop_zero, List.foldl_cons, List.foldl_nil]
    rw [e1, e2, e3, e4, e5, e6]
  simp only [justify, hwalk]
  simp [setLine, lineStep, pushGlyphs]

/-- C3 witness: the amended three-word scenario at widths 10, 10, 10
and target width 100. -/
theorem C3_three_words_single_line_witness :
    (0 : ℚ) ≤ 10 ∧ (10 : ℚ) + 10 + 10 + 45 / 2 ≤ 100 ∧
    justify [(⟨0, .penalty 0 false⟩ : Item ℕ), ⟨10, .boundingBox 0⟩, ⟨15 / 2, .glue 0 0⟩,
             ⟨10, .boundingBox 1⟩, ⟨15 / 2, .glue 0 0⟩,
             ⟨10, .boundingBox 2⟩, ⟨15 / 2, .glue 0 0⟩] 100
      = [[(0, 0), (1, 10 + 15 / 2), (2, 10 + 15 / 2 + 10 + 15 / 2)]] :=
  ⟨by norm_num, by norm_num,
   C3_three_words_single_line (⟨0, .penalty 0 false⟩ : Item ℕ) 0 1 2 10 10 10 (15 / 2) 0 0 100
     (by norm_num) (by norm_num) (by norm_num) (by norm_num)⟩

end Spandex
